import Mathlib

/-!
Verification of the PDF ingestion worker (`src/server/worker.js`).

The worker consumes upload jobs from a queue, resolves the job payload to a
file path, probes the embedding provider for its vector dimensionality,
reconciles the Qdrant collection `pdf-docs` to that dimensionality, loads the
PDF into pages, splits pages into chunks, and upserts the chunks in batches of
50 into the collection. This file is a shallow embedding of that pipeline:
external collaborators (filesystem, embedding provider, PDF loader, per-batch
upsert outcome) are an explicit environment, the Qdrant service is an explicit
state, and every externally visible call is recorded in an event trace.
-/

set_option autoImplicit false

namespace PdfWorker

/-- Text is modelled as a list of characters. -/
abbrev Str := List Char

/-- A Qdrant collection as the worker sees it: a name and the configured
vector parameters (`config.params.vectors.size` and the distance metric). -/
structure Coll where
  name : String
  size : Nat
  distance : String
deriving DecidableEq

/-- State of the Qdrant index service: the list of collections and the
persisted points, each point tagged with the collection it lives in and
carrying its chunk text. -/
structure QState where
  collections : List Coll
  points : List (String × Str)
deriving DecidableEq

/-- Externally visible calls made by the worker, in order. -/
inductive Event
  | probeCall
  | getCollections
  | getCollection (name : String)
  | deleteCollection (name : String)
  | createCollection (name : String) (size : Nat) (distance : String)
  | loadCall (path : Str)
  | upsert (batch : List Str)
  | delay
deriving DecidableEq

/-- Errors the worker run can end with. `fileNotFound` models the explicit
`throw new Error("File not found at path: ...")`; `parseError` a throwing
`JSON.parse`; `typeError` a `path.join` on an undefined argument; `loadError`
a throwing `PDFLoader.load`; `upsertError` a throwing
`vectorStore.addDocuments`. The worker's outer catch re-throws whatever it
receives, so these surface unmodified to the queue. -/
inductive JsError
  | fileNotFound (path : Str)
  | parseError
  | typeError
  | loadError (msg : Str)
  | upsertError (msg : Str)
deriving DecidableEq

/-- The value returned on success: `{ success: true, docCount: splitDocs.length }`. -/
structure JobResult where
  success : Bool
  docCount : Nat
deriving DecidableEq

/-- `getEmbeddingDimension` (worker.js lines 11-29): embed a test query and
return the vector's length; on any provider error return the default 768.
The provider outcome is the argument: `some v` is a successful call returning
vector `v`, `none` is a throwing call. -/
def getEmbeddingDimension (probeOutcome : Option (List Int)) : Nat :=
  match probeOutcome with
  | some v => v.length
  | none => 768

/-- `collections.collections.some(c => c.name === "pdf-docs")` (line 70). -/
def collectionExists (q : QState) (name : String) : Bool :=
  q.collections.any fun c => c.name == name

/-- The configured vector size of a named collection, if present
(`collectionInfo.config.params.vectors.size`, line 79). -/
def configuredSize (q : QState) (name : String) : Option Nat :=
  (q.collections.find? fun c => c.name == name).map Coll.size

/-- `qdrantClient.deleteCollection(name)`: the collection and all its points
are removed. -/
def deleteColl (q : QState) (name : String) : QState :=
  { collections := q.collections.filter fun c => c.name != name
    points := q.points.filter fun p => p.1 != name }

/-- `qdrantClient.createCollection(name, { vectors: { size, distance } })`. -/
def createColl (q : QState) (name : String) (size : Nat) (distance : String) : QState :=
  { q with collections := q.collections ++ [⟨name, size, distance⟩] }

/-- The collection check/create block of the worker (lines 68-109): list the
collections; if `pdf-docs` is present, fetch its configured vector size and,
on mismatch with `dim`, delete it and recreate it with size `dim` and Cosine
distance; if it is absent, create it with size `dim` and Cosine distance.
Returns the new service state and the trace of index-service calls. -/
def reconcile (q : QState) (dim : Nat) : QState × List Event :=
  match q.collections.find? (fun c => c.name == "pdf-docs") with
  | some c =>
    if c.size ≠ dim then
      let q1 := deleteColl q "pdf-docs"
      let q2 := createColl q1 "pdf-docs" dim "Cosine"
      (q2, [.getCollections, .getCollection "pdf-docs", .deleteCollection "pdf-docs",
            .createCollection "pdf-docs" dim "Cosine"])
    else
      (q, [.getCollections, .getCollection "pdf-docs"])
  | none =>
    (createColl q "pdf-docs" dim "Cosine",
     [.getCollections, .createCollection "pdf-docs" dim "Cosine"])

/-- `true` exactly for createCollection and deleteCollection events. -/
def isCreateOrDelete : Event → Bool
  | .createCollection _ _ _ => true
  | .deleteCollection _ => true
  | _ => false

/-- `true` exactly for upsert events. -/
def isUpsert : Event → Bool
  | .upsert _ => true
  | _ => false

/-! ### Chunker, modelled from the spec

`CharacterTextSplitter` (configured with `chunkSize: 1000, chunkOverlap: 200`,
worker.js lines 119-125) is an external library, so the splitter itself is
modelled from the spec (section 4.3): consecutive windows of length at most
`maxSize` over the text, each window after the first beginning `overlap`
characters before the end of the previous full window; at least one chunk for
any input, and the run over the pages of a document splits each page's text
and concatenates the chunk lists in page order. -/

/-- Modelled from the spec: one text is cut into consecutive windows of at
most `maxSize` characters, each next window starting `maxSize - overlap`
characters after the previous one; the recursion is fuelled, and
`fuel ≥ text.length` is enough fuel whenever `overlap < maxSize`. -/
def splitCharsFuel (maxSize overlap : Nat) : Nat → Str → List Str
  | 0, t => [t.take maxSize]
  | fuel + 1, t =>
    if t.length ≤ maxSize then [t]
    else t.take maxSize :: splitCharsFuel maxSize overlap fuel (t.drop (maxSize - overlap))

/-- Modelled from the spec: the Chunker on one text. -/
def splitTextChars (maxSize overlap : Nat) (t : Str) : List Str :=
  splitCharsFuel maxSize overlap t.length t

/-- Modelled from the spec: `splitDocuments` over the loaded pages — each
page's text is split and the chunk lists are concatenated in page order. -/
def splitPages (maxSize overlap : Nat) (pages : List Str) : List Str :=
  (pages.map (splitTextChars maxSize overlap)).flatten

/-! ### Batch indexer -/

/-- The batch loop shape (worker.js lines 140-148): `slice(i, i + bs)` then
advance by `bs`, mirrored as take/drop recursion; the fuel is adequate from
`fuel ≥ chunks.length` whenever `bs > 0`. -/
def batchesFuel (bs : Nat) : Nat → List Str → List (List Str)
  | _, [] => []
  | 0, _ :: _ => []
  | fuel + 1, x :: xs => (x :: xs).take bs :: batchesFuel bs fuel ((x :: xs).drop bs)

/-- The consecutive groups of at most `bs` chunks the worker iterates over. -/
def batches (bs : Nat) (chunks : List Str) : List (List Str) :=
  batchesFuel bs chunks.length chunks

/-- `vectorStore.addDocuments(batch)` made durable: the batch's chunks become
points of the collection. -/
def upsertPoints (q : QState) (name : String) (batch : List Str) : QState :=
  { q with points := q.points ++ batch.map fun c => (name, c) }

/-! ### Job payload -/

/-- The fields of the job payload the worker reads (worker.js line 42):
`path`, `destination`, `filename`. A missing field is `none` (JavaScript
`undefined`). -/
structure FileInfo where
  path : Option Str
  destination : Option Str
  filename : Option Str
deriving DecidableEq

/-- Node's `path.join(destination, filename)` on plain segments. -/
def pathJoin (a b : Str) : Str := a ++ '/' :: b

/-- `fileInfo.path || path.join(fileInfo.destination, fileInfo.filename)`
(line 42): a present non-empty `path` wins (the empty string is falsy in
JavaScript); otherwise the join runs, which needs both parts present
(`path.join(undefined, ...)` throws a TypeError, modelled as `none`). -/
def resolveFilePath (fi : FileInfo) : Option Str :=
  match fi.path with
  | some p => if p = [] then joinDestFilename fi else some p
  | none => joinDestFilename fi
where
  joinDestFilename (fi : FileInfo) : Option Str :=
    match fi.destination, fi.filename with
    | some d, some f => some (pathJoin d f)
    | _, _ => none

/-- The job's `data` as delivered by the queue: already an object, or a JSON
string still to be parsed (`typeof job.data === 'string'`, line 39). -/
inductive JobData
  | obj (fi : FileInfo)
  | str (s : Str)
deriving DecidableEq

/-! JSON envelope. `JSON.parse` is a platform builtin, so its restriction to
the payload shape is modelled from the spec (section 6): a mapping with the
optional string fields `path`, `destination` and `filename`. -/

/-- The characters of the key `path`. -/
def kPath : Str := ['p', 'a', 't', 'h']

/-- The characters of the key `destination`. -/
def kDestination : Str := ['d', 'e', 's', 't', 'i', 'n', 'a', 't', 'i', 'o', 'n']

/-- The characters of the key `filename`. -/
def kFilename : Str := ['f', 'i', 'l', 'e', 'n', 'a', 'm', 'e']

/-- Modelled from the spec: scan a JSON string body up to the closing quote;
returns the body and the remainder after the quote. No escape sequences: the
payload fields are plain file-system paths. -/
def scanStr : Str → Option (Str × Str)
  | [] => none
  | c :: r =>
    if c = '"' then some ([], r)
    else
      match scanStr r with
      | some (s, r') => some (c :: s, r')
      | none => none

/-- Modelled from the spec: one `"key":"value"` pair; returns the pair and
the remainder after the value's closing quote. -/
def parsePair (l : Str) : Option ((Str × Str) × Str) :=
  match l with
  | '"' :: r =>
    match scanStr r with
    | some (k, ':' :: '"' :: r2) =>
      match scanStr r2 with
      | some (v, r3) => some ((k, v), r3)
      | none => none
    | _ => none
  | _ => none

/-- Modelled from the spec: the comma-separated pairs of a JSON object, after
the opening brace, up to a final `}` ending the input. -/
def parsePairs : Nat → Str → Option (List (Str × Str))
  | fuel, l =>
    if l = ['}'] then some []
    else
      match fuel with
      | 0 => none
      | fuel + 1 =>
        match parsePair l with
        | some (kv, rest) =>
          if rest = ['}'] then some [kv]
          else
            match rest with
            | ',' :: r =>
              match parsePairs fuel r with
              | some kvs => some (kv :: kvs)
              | none => none
            | _ => none
        | none => none

/-- The value of the first field with the given key, if any. -/
def lookupField (fields : List (Str × Str)) (k : Str) : Option Str :=
  (fields.find? fun kv => kv.1 == k).map Prod.snd

/-- Modelled from the spec: `JSON.parse` of the payload string, restricted to
the payload shape — an object of string fields, of which `path`,
`destination` and `filename` are read. `none` is a throwing parse. -/
def parseFileInfo (l : Str) : Option FileInfo :=
  match l with
  | '{' :: r =>
    (parsePairs l.length r).map fun fields =>
      { path := lookupField fields kPath
        destination := lookupField fields kDestination
        filename := lookupField fields kFilename }
  | _ => none

/-- Modelled from the spec: the JSON text of a payload, fields in the order
`path`, `destination`, `filename`, absent fields omitted. -/
def encodeField (k v : Str) : Str :=
  '"' :: k ++ '"' :: ':' :: '"' :: v ++ ['"']

/-- Serialise a non-empty field list, closing the object. -/
def encodeFieldList : List (Str × Str) → Str
  | [] => ['}']
  | [kv] => encodeField kv.1 kv.2 ++ ['}']
  | kv :: rest => encodeField kv.1 kv.2 ++ ',' :: encodeFieldList rest

/-- The field list a payload serialises to. -/
def fieldsOf (fi : FileInfo) : List (Str × Str) :=
  (match fi.path with | some p => [(kPath, p)] | none => []) ++
  (match fi.destination with | some d => [(kDestination, d)] | none => []) ++
  (match fi.filename with | some f => [(kFilename, f)] | none => [])

/-- Modelled from the spec: the JSON string form of a payload. -/
def encodeFileInfo (fi : FileInfo) : Str :=
  '{' :: encodeFieldList (fieldsOf fi)

/-- The `typeof job.data === 'string' ? JSON.parse(job.data) : job.data`
ternary (line 39). -/
def extractFileInfo : JobData → Option FileInfo
  | .obj fi => some fi
  | .str s => parseFileInfo s

/-! ### Environment and the job runner -/

/-- Behaviour of the external collaborators during one run: the filesystem
(`fs.existsSync`), the embedding provider's probe outcome, the PDF loader's
outcome (pages of text, or a thrown error), and for each batch index the
outcome of `vectorStore.addDocuments` (`none` succeeds, `some msg` throws). -/
structure Env where
  fileExists : Str → Bool
  probe : Option (List Int)
  load : Except Str (List Str)
  upsertFail : Nat → Option Str

/-- The batch loop (worker.js lines 140-148) over the precomputed groups,
`i` the current group index: call `addDocuments` on the group; on a throw,
stop with the error; on success persist the points, and sleep for the
cool-down delay if more chunks follow. -/
def runGroups (env : Env) : List (List Str) → Nat → QState →
    Except JsError Unit × QState × List Event
  | [], _, q => (.ok (), q, [])
  | g :: gs, i, q =>
    match env.upsertFail i with
    | some msg => (.error (.upsertError msg), q, [.upsert g])
    | none =>
      let q1 := upsertPoints q "pdf-docs" g
      let rec' := runGroups env gs (i + 1) q1
      (rec'.1, rec'.2.1,
        .upsert g :: (if gs.isEmpty then [] else [Event.delay]) ++ rec'.2.2)

/-- The worker's job processor (worker.js lines 33-155): parse the payload if
it is a string, resolve the file path, check existence, probe the embedding
dimension, reconcile the collection, load the PDF, split it into chunks of
1000 characters with 200 overlap, and upsert the chunks in batches of 50;
any step's error is re-thrown by the outer catch. Returns the job outcome,
the final index-service state, and the trace of external calls. -/
def runJob (env : Env) (jd : JobData) (q : QState) :
    Except JsError JobResult × QState × List Event :=
  match extractFileInfo jd with
  | none => (.error .parseError, q, [])
  | some fi =>
    match resolveFilePath fi with
    | none => (.error .typeError, q, [])
    | some filePath =>
      if env.fileExists filePath then
        let dim := getEmbeddingDimension env.probe
        let rq := reconcile q dim
        match env.load with
        | .error m => (.error (.loadError m), rq.1, .probeCall :: rq.2 ++ [.loadCall filePath])
        | .ok pages =>
          let chunks := splitPages 1000 200 pages
          let rg := runGroups env (batches 50 chunks) 0 rq.1
          (match rg.1 with
           | .error e => .error e
           | .ok _ => .ok ⟨true, chunks.length⟩,
           rg.2.1,
           .probeCall :: rq.2 ++ .loadCall filePath :: rg.2.2)
      else
        (.error (.fileNotFound filePath), q, [])

/-! ### Helper lemmas -/

/-- After deleting a collection, no collection of that name can be found. -/
theorem find_after_deleteColl (q : QState) (name : String) :
    (deleteColl q name).collections.find? (fun c => c.name == name) = none := by
  apply List.find?_eq_none.mpr
  intro c hc
  have hmem := List.of_mem_filter hc
  simpa [bne] using hmem

/-- Finding in an appended singleton when the front part has no match. -/
theorem find_append_singleton (l : List Coll) (p : Coll → Bool) (c : Coll)
    (h : l.find? p = none) (hc : p c = true) : (l ++ [c]).find? p = some c := by
  induction l with
  | nil => simp [List.find?, hc]
  | cons a as ih =>
    cases hpa : p a with
    | true => rw [List.find?_cons_of_pos _ hpa] at h; simp at h
    | false =>
      rw [List.find?_cons_of_neg _ (by simp [hpa])] at h
      simp only [List.cons_append]
      rw [List.find?_cons_of_neg _ (by simp [hpa])]
      exact ih h

/-- Branch lemma: collection absent. -/
theorem reconcile_of_none (q : QState) (dim : Nat)
    (h : q.collections.find? (fun c => c.name == "pdf-docs") = none) :
    reconcile q dim = (createColl q "pdf-docs" dim "Cosine",
      [.getCollections, .createCollection "pdf-docs" dim "Cosine"]) := by
  simp [reconcile, h]

/-- Branch lemma: collection present with matching size. -/
theorem reconcile_of_eq (q : QState) (dim : Nat) (c : Coll)
    (h : q.collections.find? (fun c => c.name == "pdf-docs") = some c)
    (hs : c.size = dim) :
    reconcile q dim = (q, [.getCollections, .getCollection "pdf-docs"]) := by
  simp [reconcile, h, hs]

/-- Branch lemma: collection present with a different size. -/
theorem reconcile_of_ne (q : QState) (dim : Nat) (c : Coll)
    (h : q.collections.find? (fun c => c.name == "pdf-docs") = some c)
    (hs : c.size ≠ dim) :
    reconcile q dim = (createColl (deleteColl q "pdf-docs") "pdf-docs" dim "Cosine",
      [.getCollections, .getCollection "pdf-docs", .deleteCollection "pdf-docs",
       .createCollection "pdf-docs" dim "Cosine"]) := by
  simp [reconcile, h, hs]

/-- A freshly created collection over a state with no collection of that name
is the one found afterwards. -/
theorem find_createColl_fresh (q : QState) (dim : Nat) (dist : String)
    (h : q.collections.find? (fun c => c.name == "pdf-docs") = none) :
    (createColl q "pdf-docs" dim dist).collections.find? (fun c => c.name == "pdf-docs")
      = some ⟨"pdf-docs", dim, dist⟩ := by
  exact find_append_singleton _ _ _ h (by simp)

/-- After a reconcile the found collection is either the freshly created
Cosine collection of size `dim`, or the state is unchanged and the collection
already present had size `dim`. -/
theorem reconcile_find_result (q : QState) (dim : Nat) :
    (reconcile q dim).1.collections.find? (fun c => c.name == "pdf-docs")
        = some ⟨"pdf-docs", dim, "Cosine"⟩ ∨
      (∃ c, q.collections.find? (fun c => c.name == "pdf-docs") = some c ∧
        c.size = dim ∧ (reconcile q dim).1 = q) := by
  cases hf : q.collections.find? (fun c => c.name == "pdf-docs") with
  | none =>
    left
    rw [reconcile_of_none q dim hf]
    exact find_createColl_fresh q dim "Cosine" hf
  | some c =>
    by_cases hs : c.size = dim
    · right
      refine ⟨c, rfl, hs, ?_⟩
      rw [reconcile_of_eq q dim c hf hs]
    · left
      rw [reconcile_of_ne q dim c hf hs]
      exact find_createColl_fresh _ dim "Cosine" (find_after_deleteColl q "pdf-docs")

/-- After a reconcile the configured vector size equals the requested one. -/
theorem reconcile_size (q : QState) (dim : Nat) :
    configuredSize (reconcile q dim).1 "pdf-docs" = some dim := by
  rcases reconcile_find_result q dim with h | ⟨c, hf, hs, hq⟩
  · simp [configuredSize, h]
  · rw [hq]; simp [configuredSize, hf, hs]

/-- The outcome of the batch loop does not depend on the index-service state
it starts from, nor on anything in the environment besides the per-group
upsert outcomes. -/
theorem runGroups_fst_congr (env env' : Env) (h : env.upsertFail = env'.upsertFail) :
    ∀ (gs : List (List Str)) (i : Nat) (q q' : QState),
      (runGroups env gs i q).1 = (runGroups env' gs i q').1 := by
  intro gs
  induction gs with
  | nil => intro i q q'; rfl
  | cons g gs ih =>
    intro i q q'
    simp only [runGroups, h]
    cases env'.upsertFail i with
    | some msg => rfl
    | none => simpa using ih (i + 1) _ _

/-! ### Claim theorems -/

/-- C1. Every reconciliation with probed dimension `d` brings the `pdf-docs`
collection to configured vector size `d`: if it is absent it is created with
size `d` and Cosine distance; if present with size `d` nothing is created or
deleted and the state is unchanged; if present with a different size it is
deleted and then created fresh with size `d` and Cosine distance. -/
theorem reconcile_repairs_dimension (q : QState) (d : Nat) :
    configuredSize (reconcile q d).1 "pdf-docs" = some d ∧
    (q.collections.find? (fun c => c.name == "pdf-docs") = none →
      reconcile q d = (createColl q "pdf-docs" d "Cosine",
        [.getCollections, .createCollection "pdf-docs" d "Cosine"]) ∧
      (reconcile q d).1.collections.find? (fun c => c.name == "pdf-docs")
        = some ⟨"pdf-docs", d, "Cosine"⟩) ∧
    (∀ c, q.collections.find? (fun c => c.name == "pdf-docs") = some c → c.size = d →
      reconcile q d = (q, [.getCollections, .getCollection "pdf-docs"])) ∧
    (∀ c, q.collections.find? (fun c => c.name == "pdf-docs") = some c → c.size ≠ d →
      reconcile q d = (createColl (deleteColl q "pdf-docs") "pdf-docs" d "Cosine",
        [.getCollections, .getCollection "pdf-docs", .deleteCollection "pdf-docs",
         .createCollection "pdf-docs" d "Cosine"]) ∧
      (reconcile q d).1.collections.find? (fun c => c.name == "pdf-docs")
        = some ⟨"pdf-docs", d, "Cosine"⟩) := by
  refine ⟨reconcile_size q d, ?_, ?_, ?_⟩
  · intro hf
    refine ⟨reconcile_of_none q d hf, ?_⟩
    rw [reconcile_of_none q d hf]
    exact find_createColl_fresh q d "Cosine" hf
  · intro c hf hs
    exact reconcile_of_eq q d c hf hs
  · intro c hf hs
    refine ⟨reconcile_of_ne q d c hf hs, ?_⟩
    rw [reconcile_of_ne q d c hf hs]
    exact find_createColl_fresh _ d "Cosine" (find_after_deleteColl q "pdf-docs")

/-- Witness for C1 at the spec's resync scenario: an existing `pdf-docs`
collection of size 768 reconciled against dimension 1024 is deleted and
recreated, and ends configured at size 1024. -/
theorem reconcile_repairs_dimension_witness :
    configuredSize (reconcile ⟨[⟨"pdf-docs", 768, "Cosine"⟩], []⟩ 1024).1 "pdf-docs"
        = some 1024 ∧
      (reconcile ⟨[⟨"pdf-docs", 768, "Cosine"⟩], []⟩ 1024).2
        = [.getCollections, .getCollection "pdf-docs", .deleteCollection "pdf-docs",
           .createCollection "pdf-docs" 1024 "Cosine"] := by
  have h := reconcile_repairs_dimension ⟨[⟨"pdf-docs", 768, "Cosine"⟩], []⟩ 1024
  refine ⟨h.1, ?_⟩
  have h4 := h.2.2.2 ⟨"pdf-docs", 768, "Cosine"⟩ (by decide) (by decide)
  rw [h4.1]

/-- C2. Reconciliation is idempotent: a second run with the same dimension on
the state the first run produced only lists the collections and fetches the
one collection — it performs no createCollection and no deleteCollection —
and leaves the state unchanged, still configured at size `d`. -/
theorem reconcile_idempotent (q : QState) (d : Nat) :
    reconcile (reconcile q d).1 d
        = ((reconcile q d).1, [.getCollections, .getCollection "pdf-docs"]) ∧
      configuredSize (reconcile (reconcile q d).1 d).1 "pdf-docs" = some d ∧
      (reconcile (reconcile q d).1 d).2.filter isCreateOrDelete = [] := by
  have hex : ∃ c, (reconcile q d).1.collections.find? (fun c => c.name == "pdf-docs")
      = some c ∧ c.size = d := by
    rcases reconcile_find_result q d with h | ⟨c, hf, hs, hq⟩
    · exact ⟨_, h, rfl⟩
    · exact ⟨c, by rw [hq]; exact hf, hs⟩
  obtain ⟨c, hf, hs⟩ := hex
  have he := reconcile_of_eq _ d c hf hs
  refine ⟨he, ?_, ?_⟩
  · rw [he]
    exact reconcile_size q d
  · rw [he]
    rfl

/-- C3. The embedding probe returns the provider vector's length when the
provider succeeds and the default 768 when the provider throws; and the probe
outcome can never change a job's success or failure — the run's result
component is the same whatever the probe outcome is, so the probe step by
itself never fails the job. -/
theorem probe_measures_or_defaults :
    (∀ v : List Int, getEmbeddingDimension (some v) = v.length) ∧
    getEmbeddingDimension none = 768 ∧
    (∀ (env : Env) (p1 p2 : Option (List Int)) (jd : JobData) (q : QState),
      (runJob { env with probe := p1 } jd q).1 = (runJob { env with probe := p2 } jd q).1) := by
  refine ⟨fun v => rfl, rfl, ?_⟩
  intro env p1 p2 jd q
  cases hfi : extractFileInfo jd with
  | none => simp [runJob, hfi]
  | some fi =>
    cases hfp : resolveFilePath fi with
    | none => simp [runJob, hfi, hfp]
    | some fp =>
      cases hex : env.fileExists fp with
      | false => simp [runJob, hfi, hfp, hex]
      | true =>
        cases hload : env.load with
        | error m => simp [runJob, hfi, hfp, hex, hload]
        | ok pages =>
          simp only [runJob, hfi, hfp, hex, hload, if_true]
          have hcg := runGroups_fst_congr
            ⟨env.fileExists, p1, Except.ok pages, env.upsertFail⟩
            ⟨env.fileExists, p2, Except.ok pages, env.upsertFail⟩ rfl
            (batches 50 (splitPages 1000 200 pages)) 0
            (reconcile q (getEmbeddingDimension p1)).1
            (reconcile q (getEmbeddingDimension p2)).1
          rw [hcg]

/-- With positive batch size and adequate fuel, concatenating the groups
gives back the chunk list. -/
theorem batchesFuel_flatten (bs : Nat) (hbs : 0 < bs) :
    ∀ (fuel : Nat) (l : List Str), l.length ≤ fuel →
      (batchesFuel bs fuel l).flatten = l := by
  intro fuel
  induction fuel with
  | zero =>
    intro l hl
    cases l with
    | nil => rfl
    | cons x xs => simp at hl
  | succ f ih =>
    intro l hl
    cases l with
    | nil => rfl
    | cons x xs =>
      cases hb : bs with
      | zero => omega
      | succ b =>
        rw [← hb]
        simp only [batchesFuel, List.flatten_cons]
        rw [ih ((x :: xs).drop bs)
          (by simp only [List.length_drop, List.length_cons] at hl ⊢; omega)]
        exact List.take_append_drop bs (x :: xs)

/-- Every group has at most `bs` chunks. -/
theorem batchesFuel_mem_length (bs : Nat) :
    ∀ (fuel : Nat) (l : List Str) (g : List Str),
      g ∈ batchesFuel bs fuel l → g.length ≤ bs := by
  intro fuel
  induction fuel with
  | zero =>
    intro l g hg
    cases l with
    | nil => simp [batchesFuel] at hg
    | cons x xs => simp [batchesFuel] at hg
  | succ f ih =>
    intro l g hg
    cases l with
    | nil => simp [batchesFuel] at hg
    | cons x xs =>
      simp only [batchesFuel, List.mem_cons] at hg
      rcases hg with hg | hg
      · subst hg; exact List.length_take_le _ _
      · exact ih _ _ hg

/-- With positive batch size and adequate fuel, the group count is the
ceiling of the chunk count over `bs`. -/
theorem batchesFuel_length (bs : Nat) (hbs : 0 < bs) :
    ∀ (fuel : Nat) (l : List Str), l.length ≤ fuel →
      (batchesFuel bs fuel l).length = (l.length + bs - 1) / bs := by
  intro fuel
  induction fuel with
  | zero =>
    intro l hl
    cases l with
    | nil => simp [batchesFuel, Nat.div_eq_of_lt (by omega : bs - 1 < bs)]
    | cons x xs => simp at hl
  | succ f ih =>
    intro l hl
    cases l with
    | nil => simp [batchesFuel, Nat.div_eq_of_lt (by omega : bs - 1 < bs)]
    | cons x xs =>
      cases hb : bs with
      | zero => omega
      | succ b =>
        rw [← hb]
        simp only [batchesFuel, List.length_cons]
        rw [ih ((x :: xs).drop bs)
          (by simp only [List.length_drop, List.length_cons] at hl ⊢; omega)]
        simp only [List.length_drop, List.length_cons]
        have h2 : xs.length + 1 + bs - 1 = xs.length + bs := by omega
        rw [h2, Nat.add_div_right _ hbs]
        by_cases hle : bs ≤ xs.length + 1
        · have he : xs.length + 1 - bs + bs - 1 = xs.length := by omega
          rw [he]
        · have he : xs.length + 1 - bs = 0 := by omega
          rw [he]
          rw [Nat.div_eq_of_lt (by omega : 0 + bs - 1 < bs),
            Nat.div_eq_of_lt (by omega : xs.length < bs)]

/-- When no group's upsert fails, the batch loop succeeds and issues exactly
one upsert call per group, in group order. -/
theorem runGroups_all_ok (env : Env) (hok : ∀ j, env.upsertFail j = none) :
    ∀ (gs : List (List Str)) (i : Nat) (q : QState),
      (runGroups env gs i q).1 = .ok () ∧
      (runGroups env gs i q).2.2.filter isUpsert = gs.map Event.upsert := by
  intro gs
  induction gs with
  | nil => intro i q; exact ⟨rfl, rfl⟩
  | cons g gs ih =>
    intro i q
    have h := ih (i + 1) (upsertPoints q "pdf-docs" g)
    constructor
    · simp only [runGroups, hok i]
      exact h.1
    · simp only [runGroups, hok i, List.filter_cons, List.filter_append]
      cases gs with
      | nil => simpa [isUpsert] using h.2
      | cons g2 gs2 => simpa [isUpsert] using h.2

/-- The reconciliation step issues no upsert call. -/
theorem reconcile_no_upsert (q : QState) (dim : Nat) :
    (reconcile q dim).2.filter isUpsert = [] := by
  cases hf : q.collections.find? (fun c => c.name == "pdf-docs") with
  | none => rw [reconcile_of_none q dim hf]; rfl
  | some c =>
    by_cases hs : c.size = dim
    · rw [reconcile_of_eq q dim c hf hs]; rfl
    · rw [reconcile_of_ne q dim c hf hs]; rfl

/-- C4. The batch indexer partitions the chunk list into exactly
`ceil(n / 50)` consecutive groups in original order, each of at most 50
chunks; it issues exactly one upsert per group, and a successful run of the
job reports `docCount` equal to the number of chunks. In particular 120
chunks make exactly the groups of sizes 50, 50 and 20. -/
theorem batch_indexer_partitions (chunks : List Str) (env : Env) (q : QState) (i : Nat)
    (hok : ∀ j, env.upsertFail j = none) :
    (batches 50 chunks).flatten = chunks ∧
    (∀ g ∈ batches 50 chunks, g.length ≤ 50) ∧
    (batches 50 chunks).length = (chunks.length + 49) / 50 ∧
    (runGroups env (batches 50 chunks) i q).1 = .ok () ∧
    (runGroups env (batches 50 chunks) i q).2.2.filter isUpsert
      = (batches 50 chunks).map Event.upsert ∧
    (batches 50 (List.replicate 120 ['x'])).map List.length = [50, 50, 20] ∧
    (∀ (fi : FileInfo) (fp : Str) (pages : List Str),
      resolveFilePath fi = some fp → env.fileExists fp = true → env.load = .ok pages →
      (runJob env (.obj fi) q).1 = .ok ⟨true, (splitPages 1000 200 pages).length⟩) := by
  refine ⟨batchesFuel_flatten 50 (by omega) chunks.length chunks (le_refl _),
    fun g hg => batchesFuel_mem_length 50 chunks.length chunks g hg,
    batchesFuel_length 50 (by omega) chunks.length chunks (le_refl _),
    (runGroups_all_ok env hok (batches 50 chunks) i q).1,
    (runGroups_all_ok env hok (batches 50 chunks) i q).2,
    by decide, ?_⟩
  intro fi fp pages hfp hex hload
  simp only [runJob, extractFileInfo, hfp, hex, if_true, hload]
  rw [(runGroups_all_ok env hok (batches 50 (splitPages 1000 200 pages)) 0
    (reconcile q (getEmbeddingDimension env.probe)).1).1]

/-- An environment in which every external call succeeds and the document
loads as 51 one-character pages. -/
def envAllOk : Env :=
  { fileExists := fun _ => true
    probe := none
    load := .ok (List.replicate 51 ['a'])
    upsertFail := fun _ => none }

/-- Witness for C4: 120 chunks are grouped as 50, 50, 20, the groups
reassemble the input, and the loop succeeds. -/
theorem batch_indexer_partitions_witness :
    (batches 50 (List.replicate 120 ['x'])).map List.length = [50, 50, 20] ∧
    (batches 50 (List.replicate 120 ['x'])).flatten = List.replicate 120 ['x'] ∧
    (runGroups envAllOk (batches 50 (List.replicate 120 ['x'])) 0 ⟨[], []⟩).1 = .ok () := by
  have h := batch_indexer_partitions (List.replicate 120 ['x']) envAllOk ⟨[], []⟩ 0
    (fun j => rfl)
  exact ⟨h.2.2.2.2.2.1, h.1, h.2.2.2.1⟩

/-- C5. A job whose resolved path does not exist fails with the
file-not-found error, leaves the index service untouched, and makes no
external call at all: in particular the embedding probe and the collection
reconciler are never invoked. -/
theorem missing_file_fails_first (env : Env) (jd : JobData) (q : QState)
    (fi : FileInfo) (fp : Str)
    (hfi : extractFileInfo jd = some fi)
    (hfp : resolveFilePath fi = some fp)
    (hex : env.fileExists fp = false) :
    runJob env jd q = (.error (.fileNotFound fp), q, []) := by
  simp [runJob, hfi, hfp, hex]

/-- Witness for C5: with a missing file the job fails with the
file-not-found error and the trace is empty. -/
theorem missing_file_fails_first_witness :
    runJob ⟨fun _ => false, none, .ok [], fun _ => none⟩
        (.obj ⟨some ['a'], none, none⟩) ⟨[], []⟩
      = (.error (.fileNotFound ['a']), ⟨[], []⟩, []) :=
  missing_file_fails_first ⟨fun _ => false, none, .ok [], fun _ => none⟩
    (.obj ⟨some ['a'], none, none⟩) ⟨[], []⟩ ⟨some ['a'], none, none⟩ ['a'] rfl rfl rfl

/-- The chunk list of one text is never empty. -/
theorem splitCharsFuel_ne_nil (m o fuel : Nat) (t : Str) :
    splitCharsFuel m o fuel t ≠ [] := by
  cases fuel with
  | zero => simp [splitCharsFuel]
  | succ f =>
    by_cases ht : t.length ≤ m
    · simp [splitCharsFuel, ht]
    · simp [splitCharsFuel, ht]

/-- Every chunk of one text has at most `m` characters. -/
theorem splitCharsFuel_mem_length (m o : Nat) :
    ∀ (fuel : Nat) (t : Str) (c : Str), c ∈ splitCharsFuel m o fuel t → c.length ≤ m := by
  intro fuel
  induction fuel with
  | zero =>
    intro t c hc
    simp only [splitCharsFuel, List.mem_singleton] at hc
    subst hc
    exact List.length_take_le _ _
  | succ f ih =>
    intro t c hc
    by_cases ht : t.length ≤ m
    · simp only [splitCharsFuel, if_pos ht, List.mem_singleton] at hc
      subst hc
      exact ht
    · simp only [splitCharsFuel, if_neg ht, List.mem_cons] at hc
      rcases hc with hc | hc
      · subst hc; exact List.length_take_le _ _
      · exact ih _ _ hc

/-- The first chunk of one text is always its `m`-character prefix. -/
theorem splitCharsFuel_head (m o fuel : Nat) (t : Str) :
    ∃ rs, splitCharsFuel m o fuel t = t.take m :: rs := by
  cases fuel with
  | zero => exact ⟨[], rfl⟩
  | succ f =>
    by_cases ht : t.length ≤ m
    · refine ⟨[], ?_⟩
      simp [splitCharsFuel, ht, List.take_of_length_le ht]
    · exact ⟨splitCharsFuel m o f (t.drop (m - o)), by simp [splitCharsFuel, ht]⟩

/-- The non-overlapping reconstruction of the claim: the whole first chunk,
then every later chunk with its leading `overlap` characters removed. -/
def reconstructChunks (overlap : Nat) : List Str → Str
  | [] => []
  | c :: cs => c ++ (cs.map (List.drop overlap)).flatten

/-- With `o < m` and adequate fuel, the non-overlapping reconstruction of the
chunks of a text is the text itself. -/
theorem splitCharsFuel_reconstruct (m o : Nat) (ho : o < m) :
    ∀ (fuel : Nat) (t : Str), t.length ≤ fuel →
      reconstructChunks o (splitCharsFuel m o fuel t) = t := by
  intro fuel
  induction fuel with
  | zero =>
    intro t hl
    have ht : t = [] := by
      cases t with
      | nil => rfl
      | cons a as => simp at hl
    subst ht
    simp [splitCharsFuel, reconstructChunks]
  | succ f ih =>
    intro t hl
    by_cases ht : t.length ≤ m
    · simp [splitCharsFuel, ht, reconstructChunks]
    · obtain ⟨rs, hrs⟩ := splitCharsFuel_head m o f (t.drop (m - o))
      have hlen : (t.drop (m - o)).length ≤ f := by
        simp only [List.length_drop]
        omega
      have ih' := ih (t.drop (m - o)) hlen
      rw [hrs] at ih'
      simp only [reconstructChunks] at ih'
      have hX : ((rs.map (List.drop o)).flatten)
          = (t.drop (m - o)).drop ((t.drop (m - o)).take m).length := by
        have := congrArg (List.drop ((t.drop (m - o)).take m).length) ih'
        rwa [List.drop_left] at this
      simp only [splitCharsFuel, if_neg ht, reconstructChunks]
      rw [hrs]
      simp only [List.map_cons, List.flatten_cons]
      rw [hX]
      -- abbreviations: the tail after the first window
      have hdd : (t.drop (m - o)).drop o = t.drop m := by
        rw [List.drop_drop]
        congr 1
        omega
      have hA : ((t.drop (m - o)).take m).drop o = (t.drop m).take (m - o) := by
        rw [List.drop_take, hdd]
      have hlt : ¬ t.length ≤ m := ht
      have hlen' : (t.drop (m - o)).length = t.length - (m - o) := List.length_drop _ _
      have hdropsplit : ∀ (l : Str) (n k : Nat), k ≤ n →
          l.drop n = (l.drop k).drop (n - k) := by
        intro l n k hk
        rw [List.drop_drop]
        congr 1
        omega
      have hLo : o ≤ ((t.drop (m - o)).take m).length := by
        simp only [List.length_take, List.length_drop]
        rw [Nat.le_min]
        constructor <;> omega
      have hC : (t.drop (m - o)).drop (((t.drop (m - o)).take m).length)
          = (t.drop m).drop (((t.drop (m - o)).take m).length - o) := by
        rw [hdropsplit (t.drop (m - o)) (((t.drop (m - o)).take m).length) o hLo, hdd]
      rw [hA, hC]
      have hfin : (t.drop m).take (m - o)
            ++ (t.drop m).drop (((t.drop (m - o)).take m).length - o) = t.drop m := by
        by_cases hm : m ≤ (t.drop (m - o)).length
        · have : ((t.drop (m - o)).take m).length - o = m - o := by
            simp only [List.length_take]
            omega
          rw [this]
          exact List.take_append_drop _ _
        · have hu : (t.drop m).length = t.length - m := List.length_drop _ _
          have h1 : (t.drop m).take (m - o) = t.drop m := by
            apply List.take_of_length_le
            omega
          have h2 : ((t.drop (m - o)).take m).length - o = (t.drop m).length := by
            simp only [List.length_take]
            omega
          rw [h1, h2, List.drop_length, List.append_nil]

      rw [hfin]
      exact List.take_append_drop m t

/-- C6. On any non-empty page sequence the chunker at `maxSize = 1000`,
`overlap = 200` yields a non-empty chunk list whose every chunk has at most
1000 characters (and, being a total function, it terminates). -/
theorem chunker_nonempty_bounded (pages : List Str) (h : pages ≠ []) :
    splitPages 1000 200 pages ≠ [] ∧
    ∀ c ∈ splitPages 1000 200 pages, c.length ≤ 1000 := by
  constructor
  · cases pages with
    | nil => exact absurd rfl h
    | cons p ps =>
      simp only [splitPages, List.map_cons, List.flatten_cons, ne_eq,
        List.append_eq_nil]
      intro hcontra
      exact splitCharsFuel_ne_nil 1000 200 p.length p hcontra.1
  · intro c hc
    simp only [splitPages, List.mem_flatten] at hc
    obtain ⟨l, hl, hcl⟩ := hc
    simp only [List.mem_map] at hl
    obtain ⟨p, _, hpl⟩ := hl
    subst hpl
    exact splitCharsFuel_mem_length 1000 200 p.length p c hcl

/-- Witness for C6 on a one-page document. -/
theorem chunker_nonempty_bounded_witness :
    splitPages 1000 200 [['a']] ≠ [] ∧
    ∀ c ∈ splitPages 1000 200 [['a']], c.length ≤ 1000 :=
  chunker_nonempty_bounded [['a']] (by simp)

/-- C7. For every input text and chunker configuration with
`overlap < maxSize`, concatenating the whole first chunk with every later
chunk stripped of its leading `overlap` characters reconstructs the text. -/
theorem chunker_roundtrip (t : Str) (m o : Nat) (ho : o < m) :
    reconstructChunks o (splitTextChars m o t) = t :=
  splitCharsFuel_reconstruct m o ho t.length t (Nat.le_refl _)

/-- Witness for C7: a 5-character text split with windows of 2 and overlap 1
reassembles losslessly. -/
theorem chunker_roundtrip_witness :
    reconstructChunks 1 (splitTextChars 2 1 ['a', 'b', 'c', 'd', 'e'])
      = ['a', 'b', 'c', 'd', 'e'] :=
  chunker_roundtrip ['a', 'b', 'c', 'd', 'e'] 2 1 (by decide)

/-- C8 (amended). When the PDF loader throws, the job fails with the
loader's error; the worker performs no emptiness check of its own, so a
document that loads with no pages is not an error. -/
theorem loader_error_propagates (env : Env) (jd : JobData) (q : QState)
    (fi : FileInfo) (fp msg : Str)
    (hfi : extractFileInfo jd = some fi)
    (hfp : resolveFilePath fi = some fp)
    (hex : env.fileExists fp = true)
    (hload : env.load = .error msg) :
    (runJob env jd q).1 = .error (.loadError msg) := by
  simp [runJob, hfi, hfp, hex, hload]

/-- Witness for the amended C8: a loader throw fails the job with that
loader error. -/
theorem loader_error_propagates_witness :
    (runJob ⟨fun _ => true, none, .error ['e'], fun _ => none⟩
        (.obj ⟨some ['a'], none, none⟩) ⟨[], []⟩).1
      = .error (.loadError ['e']) :=
  loader_error_propagates ⟨fun _ => true, none, .error ['e'], fun _ => none⟩
    (.obj ⟨some ['a'], none, none⟩) ⟨[], []⟩ ⟨some ['a'], none, none⟩ ['a'] ['e']
    rfl rfl rfl rfl

/-- Counterexample to C8 as stated: a job whose document loads with empty
content — a page list with no pages — does not fail with a load error; the
run completes successfully and reports a chunk count of zero. -/
theorem empty_load_succeeds_counterexample :
    (runJob ⟨fun _ => true, none, .ok [], fun _ => none⟩
        (.obj ⟨some ['a'], none, none⟩) ⟨[], []⟩).1
      = .ok ⟨true, 0⟩ := by
  rfl

/-- On a failing group the batch loop stops with the upsert error: the
already-written groups before index `k` (counted from `i`) stay persisted,
the failing group was the last upsert attempted, and no later group is
attempted. -/
theorem runGroups_fail (env : Env) :
    ∀ (gs : List (List Str)) (k i : Nat) (q : QState) (msg : Str),
      env.upsertFail (i + k) = some msg →
      (∀ j, j < k → env.upsertFail (i + j) = none) →
      k < gs.length →
      (runGroups env gs i q).1 = .error (.upsertError msg) ∧
      (runGroups env gs i q).2.1.points
        = q.points ++ ((gs.take k).flatten.map fun c => ("pdf-docs", c)) ∧
      (runGroups env gs i q).2.2.filter isUpsert
        = (gs.take (k + 1)).map Event.upsert := by
  intro gs
  induction gs with
  | nil =>
    intro k i q msg _ _ hk
    simp at hk
  | cons g gs ih =>
    intro k i q msg hk hbefore hklen
    cases k with
    | zero =>
      simp only [Nat.add_zero] at hk
      refine ⟨?_, ?_, ?_⟩
      · simp [runGroups, hk]
      · simp [runGroups, hk]
      · simp [runGroups, hk, isUpsert]
    | succ k' =>
      have h0 : env.upsertFail i = none := by
        have := hbefore 0 (Nat.succ_pos k')
        simpa using this
      have hk' : env.upsertFail ((i + 1) + k') = some msg := by
        rw [show (i + 1) + k' = i + (k' + 1) by omega]
        exact hk
      have hbefore' : ∀ j, j < k' → env.upsertFail ((i + 1) + j) = none := by
        intro j hj
        rw [show (i + 1) + j = i + (j + 1) by omega]
        exact hbefore (j + 1) (by omega)
      have hklen' : k' < gs.length := by
        simp only [List.length_cons] at hklen
        omega
      have h := ih k' (i + 1) (upsertPoints q "pdf-docs" g) msg hk' hbefore' hklen'
      refine ⟨?_, ?_, ?_⟩
      · simp only [runGroups, h0]
        exact h.1
      · simp only [runGroups, h0]
        rw [h.2.1]
        simp [upsertPoints, List.take_cons]
      · simp only [runGroups, h0]
        cases gs with
        | nil => simp at hklen'
        | cons g2 gs2 =>
          simp [isUpsert, List.take_succ_cons, h.2.2]

/-- C9. If the upsert of group `k` (zero-based) fails while all groups
before it succeed, the whole job fails with exactly that upsert error; the
groups before `k` remain persisted on top of the post-reconciliation state,
and the upserts attempted are exactly groups `0..k` — none after `k`. -/
theorem group_failure_fails_job (env : Env) (q : QState) (fi : FileInfo)
    (fp : Str) (pages : List Str) (k : Nat) (msg : Str)
    (hfp : resolveFilePath fi = some fp)
    (hex : env.fileExists fp = true)
    (hload : env.load = .ok pages)
    (hk : env.upsertFail k = some msg)
    (hbefore : ∀ j, j < k → env.upsertFail j = none)
    (hklen : k < (batches 50 (splitPages 1000 200 pages)).length) :
    (runJob env (.obj fi) q).1 = .error (.upsertError msg) ∧
    (runJob env (.obj fi) q).2.1.points
      = (reconcile q (getEmbeddingDimension env.probe)).1.points
        ++ (((batches 50 (splitPages 1000 200 pages)).take k).flatten.map
              fun c => ("pdf-docs", c)) ∧
    (runJob env (.obj fi) q).2.2.filter isUpsert
      = ((batches 50 (splitPages 1000 200 pages)).take (k + 1)).map Event.upsert := by
  have hk0 : env.upsertFail (0 + k) = some msg := by simpa using hk
  have hbefore0 : ∀ j, j < k → env.upsertFail (0 + j) = none := by
    intro j hj
    simpa using hbefore j hj
  have h := runGroups_fail env (batches 50 (splitPages 1000 200 pages)) k 0
    (reconcile q (getEmbeddingDimension env.probe)).1 msg hk0 hbefore0 hklen
  refine ⟨?_, ?_, ?_⟩
  · simp only [runJob, extractFileInfo, hfp, hex, if_true, hload]
    rw [h.1]
  · simp only [runJob, extractFileInfo, hfp, hex, if_true, hload]
    exact h.2.1
  · simp only [runJob, extractFileInfo, hfp, hex, if_true, hload, List.filter_cons,
      List.filter_append]
    rw [show isUpsert Event.probeCall = false from rfl,
      show isUpsert (Event.loadCall fp) = false from rfl]
    simp only [if_neg, Bool.false_eq_true, not_false_iff]
    rw [reconcile_no_upsert q (getEmbeddingDimension env.probe), h.2.2]
    simp

/-- The environment for the C9 witness: 51 one-character pages make 51
chunks, hence two batches, and the second batch's upsert throws. -/
def envFailSecond : Env :=
  { fileExists := fun _ => true
    probe := none
    load := .ok (List.replicate 51 ['a'])
    upsertFail := fun i => if i = 1 then some ['m'] else none }

/-- Witness for C9: with two groups and the second one failing, the job
fails with that upsert error. -/
theorem group_failure_fails_job_witness :
    (runJob envFailSecond (.obj ⟨some ['p'], none, none⟩) ⟨[], []⟩).1
      = .error (.upsertError ['m']) :=
  (group_failure_fails_job envFailSecond ⟨[], []⟩ ⟨some ['p'], none, none⟩
    ['p'] (List.replicate 51 ['a']) 1 ['m'] rfl rfl rfl rfl
    (by
      intro j hj
      have hj0 : j = 0 := by omega
      subst hj0
      rfl)
    (by decide)).1

/-- Scanning a quote-free body followed by a closing quote yields the body
and the remainder. -/
theorem scanStr_closed (v : Str) (r : Str) (h : ∀ c ∈ v, c ≠ '"') :
    scanStr (v ++ '"' :: r) = some (v, r) := by
  induction v with
  | nil => simp [scanStr]
  | cons c cs ih =>
    have hc : c ≠ '"' := h c (by simp)
    have ih' := ih fun x hx => h x (by simp [hx])
    simp [scanStr, hc, ih']

/-- A serialised field followed by anything parses back as that field. -/
theorem parsePair_encodeField (k v rest : Str)
    (hk : ∀ c ∈ k, c ≠ '"') (hv : ∀ c ∈ v, c ≠ '"') :
    parsePair (encodeField k v ++ rest) = some ((k, v), rest) := by
  have h1 := scanStr_closed k (':' :: '"' :: (v ++ '"' :: rest)) hk
  have h2 := scanStr_closed v rest hv
  simp only [encodeField, List.cons_append, List.append_assoc, List.singleton_append,
    List.nil_append]
  simp only [parsePair, h1, h2]

/-- A field list has at most as many fields as its serialisation has
characters. -/
theorem encodeFieldList_length :
    ∀ fields : List (Str × Str), fields.length ≤ (encodeFieldList fields).length := by
  intro fields
  induction fields with
  | nil => simp [encodeFieldList]
  | cons kv rest ih =>
    cases rest with
    | nil => simp [encodeFieldList, encodeField]
    | cons kv2 rest2 =>
      simp only [encodeFieldList, encodeField, List.length_cons, List.length_append]
      simp only [List.length_cons, List.length_append] at ih ⊢
      omega

/-- A serialised field list parses back to itself whenever the keys and
values contain no quote character and the fuel covers the field count. -/
theorem parsePairs_encodeFieldList :
    ∀ (fields : List (Str × Str)) (fuel : Nat),
      fields.length ≤ fuel →
      (∀ kv ∈ fields, ∀ c ∈ kv.1, c ≠ '"') →
      (∀ kv ∈ fields, ∀ c ∈ kv.2, c ≠ '"') →
      parsePairs fuel (encodeFieldList fields) = some fields := by
  intro fields
  induction fields with
  | nil =>
    intro fuel _ _ _
    rw [encodeFieldList, parsePairs.eq_def]
    simp
  | cons kv rest ih =>
    intro fuel hlen hkeys hvals
    cases fuel with
    | zero => simp at hlen
    | succ f =>
      have hk : ∀ c ∈ kv.1, c ≠ '"' := hkeys kv (by simp)
      have hv : ∀ c ∈ kv.2, c ≠ '"' := hvals kv (by simp)
      cases rest with
      | nil =>
        show parsePairs (f + 1) (encodeField kv.1 kv.2 ++ ['}']) = some [kv]
        rw [parsePairs.eq_def]
        dsimp only
        rw [if_neg (by simp [encodeField])]
        rw [parsePair_encodeField kv.1 kv.2 ['}'] hk hv]
        rfl
      | cons kv2 rest2 =>
        show parsePairs (f + 1)
            (encodeField kv.1 kv.2 ++ ',' :: encodeFieldList (kv2 :: rest2))
          = some (kv :: kv2 :: rest2)
        rw [parsePairs.eq_def]
        dsimp only
        rw [if_neg (by simp [encodeField])]
        rw [parsePair_encodeField kv.1 kv.2 (',' :: encodeFieldList (kv2 :: rest2)) hk hv]
        have hrec := ih f (by simp at hlen ⊢; omega)
          (fun x hx => hkeys x (by simp [hx, List.mem_cons]))
          (fun x hx => hvals x (by simp [hx, List.mem_cons]))
        simp only [if_neg (by simp : ¬(',' :: encodeFieldList (kv2 :: rest2) = ['}']))]
        rw [hrec]

/-- Parsing the serialisation of a field list builds the payload whose three
fields are looked up in that list. -/
theorem parseFileInfo_fields (fields : List (Str × Str))
    (hkeys : ∀ kv ∈ fields, ∀ c ∈ kv.1, c ≠ '"')
    (hvals : ∀ kv ∈ fields, ∀ c ∈ kv.2, c ≠ '"') :
    parseFileInfo ('{' :: encodeFieldList fields)
      = some { path := lookupField fields kPath
               destination := lookupField fields kDestination
               filename := lookupField fields kFilename } := by
  simp only [parseFileInfo, List.length_cons]
  rw [parsePairs_encodeFieldList fields ((encodeFieldList fields).length + 1)
    (Nat.le_succ_of_le (encodeFieldList_length fields)) hkeys hvals]
  rfl

/-- The serialisation of a payload parses back to the same payload whenever
its fields contain no quote character. -/
theorem parseFileInfo_encode (fi : FileInfo)
    (hp : ∀ s, fi.path = some s → ∀ c ∈ s, c ≠ '"')
    (hd : ∀ s, fi.destination = some s → ∀ c ∈ s, c ≠ '"')
    (hf : ∀ s, fi.filename = some s → ∀ c ∈ s, c ≠ '"') :
    parseFileInfo (encodeFileInfo fi) = some fi := by
  have b1 : (kPath == kDestination) = false := by decide
  have b2 : (kPath == kFilename) = false := by decide
  have b3 : (kDestination == kPath) = false := by decide
  have b4 : (kDestination == kFilename) = false := by decide
  have b5 : (kFilename == kPath) = false := by decide
  have b6 : (kFilename == kDestination) = false := by decide
  have b7 : (kPath == kPath) = true := by decide
  have b8 : (kDestination == kDestination) = true := by decide
  have b9 : (kFilename == kFilename) = true := by decide
  have hkp : ∀ c ∈ kPath, c ≠ '"' := by decide
  have hkd : ∀ c ∈ kDestination, c ≠ '"' := by decide
  have hkf : ∀ c ∈ kFilename, c ≠ '"' := by decide
  obtain ⟨p, d, f⟩ := fi
  cases p <;> cases d <;> cases f <;>
    · refine Eq.trans (parseFileInfo_fields _ ?_ ?_) ?_
      · intro kv hkv
        fin_cases hkv <;>
          first
            | exact hkp
            | exact hkd
            | exact hkf
      · intro kv hkv
        fin_cases hkv <;>
          first
            | exact hp _ rfl
            | exact hd _ rfl
            | exact hf _ rfl
      · simp [fieldsOf, lookupField, List.find?, b1, b2, b3, b4, b5, b6, b7, b8, b9]

/-- C10. A job payload arriving as its JSON string parses back to the
payload object, and the run on the string payload is the run on the object
payload — same path resolution, same outcome, same state, same trace. -/
theorem string_payload_equivalent (env : Env) (q : QState) (fi : FileInfo)
    (hp : ∀ s, fi.path = some s → ∀ c ∈ s, c ≠ '"')
    (hd : ∀ s, fi.destination = some s → ∀ c ∈ s, c ≠ '"')
    (hf : ∀ s, fi.filename = some s → ∀ c ∈ s, c ≠ '"') :
    extractFileInfo (.str (encodeFileInfo fi)) = some fi ∧
    runJob env (.str (encodeFileInfo fi)) q = runJob env (.obj fi) q := by
  have hr : parseFileInfo (encodeFileInfo fi) = some fi := parseFileInfo_encode fi hp hd hf
  refine ⟨hr, ?_⟩
  simp only [runJob, extractFileInfo, hr]

/-- Witness for C10 at a concrete payload. -/
theorem string_payload_equivalent_witness :
    extractFileInfo (.str (encodeFileInfo ⟨some ['a'], some ['d'], some ['f']⟩))
        = some ⟨some ['a'], some ['d'], some ['f']⟩ ∧
      runJob ⟨fun _ => true, none, .ok [], fun _ => none⟩
          (.str (encodeFileInfo ⟨some ['a'], some ['d'], some ['f']⟩)) ⟨[], []⟩
        = runJob ⟨fun _ => true, none, .ok [], fun _ => none⟩
          (.obj ⟨some ['a'], some ['d'], some ['f']⟩) ⟨[], []⟩ :=
  string_payload_equivalent ⟨fun _ => true, none, .ok [], fun _ => none⟩ ⟨[], []⟩
    ⟨some ['a'], some ['d'], some ['f']⟩
    (fun s hs => by injection hs with h; subst h; decide)
    (fun s hs => by injection hs with h; subst h; decide)
    (fun s hs => by injection hs with h; subst h; decide)

end PdfWorker
